import Mathlib

/-!
Verification development for the influxdb SQL-driver repository.

The repository consists of four Go files: the driver adapter (`influx.go`),
the HTTP client, the client data model (points, batches, queries, responses),
and the UDP client with its payload chunker.  The definitions below are
shallow embeddings of those functions: bytes of a line-protocol payload are
modelled as `List Char` (Go regexps and `bytes.IndexByte` operate on the
payload contents), Go's multiple-return errors as `Option String` (the error
message, `none` for `nil`), and the network side effects of the transport
client as an explicit list of issued `Call`s together with an oracle mapping
each write to the error the transport would return.
-/

/-! ### UDP chunker (`udpPayload`, `udpWrite` from the UDP client file)

Go source of the inner loop:
```
head, tail = nil, data
for len(head) < size {
    if pos := bytes.IndexByte(tail, '\n'); pos > 0 {
        head, tail = append(head, tail[:pos]...), tail[pos:]
        continue
    }
    break
}
if head == nil { head, tail = data, nil }
```
`bytes.IndexByte(tail, '\n')` returns the index of the first newline, so
`pos > 0` holds exactly when `tail.takeWhile (· != '\n')` is nonempty (the
first newline is not at position 0) and `tail.dropWhile (· != '\n')` is
nonempty (a newline exists); `tail[:pos]`/`tail[pos:]` are that
takeWhile/dropWhile split.  The loop body strictly shrinks `tail`, so
`tail.length + 1` rounds of fuel are never exhausted (made precise by
`udpPayloadLoop_fuel_stable` below); the fuel argument only makes the
recursion structural. -/

def udpPayloadLoop : Nat → Nat → List Char → List Char → List Char × List Char
  | 0, _, head, tail => (head, tail)
  | fuel + 1, size, head, tail =>
    if head.length < size then
      if tail.takeWhile (fun c => c != '\n') ≠ [] ∧ tail.dropWhile (fun c => c != '\n') ≠ [] then
        udpPayloadLoop fuel size (head ++ tail.takeWhile (fun c => c != '\n'))
          (tail.dropWhile (fun c => c != '\n'))
      else (head, tail)
    else (head, tail)

/-- Embedding of `udpPayload(data, size) (head, tail []byte)`.  In Go, `head`
is `nil` at the end exactly when the loop never appended to it (every append
appends a nonempty `tail[:pos]`), so the final `if head == nil` test is the
test `p.1 = []`. -/
def udpPayload (data : List Char) (size : Nat) : List Char × List Char :=
  if (udpPayloadLoop (data.length + 1) size [] data).1 = [] then (data, [])
  else udpPayloadLoop (data.length + 1) size [] data

/-- The sequence of `head` chunks produced by iterating `udpPayload` the way
the `udpWrite` loop does (split a chunk off, advance to the remainder, stop
when the chunk is empty).  The fuel counts loop iterations; `none` means the
fuel ran out before the loop reached its exit condition. -/
def udpChunksFuel : Nat → List Char → Nat → Option (List (List Char))
  | 0, _, _ => none
  | fuel + 1, data, size =>
    if (udpPayload data size).1 = [] then some []
    else
      match udpChunksFuel fuel (udpPayload data size).2 size with
      | some rest => some ((udpPayload data size).1 :: rest)
      | none => none

/-- Embedding of the `udpWrite` loop.  Go source:
```
head, tail := []byte(nil), data
for {
    head, tail = udpPayload(tail, size)
    if len(head) == 0 { break }
    _, err := conn.Write(data)   // note: writes data, not head
    if err != nil { return err }
}
```
The returned list is the sequence of datagrams passed to `conn.Write`; the
source writes the whole original `data` on every iteration (`odata` below),
not the chunk `head`.  `none` means the fuel ran out. -/
def udpWriteFuel : Nat → List Char → List Char → Nat → Option (List (List Char))
  | 0, _, _, _ => none
  | fuel + 1, odata, tail, size =>
    if (udpPayload tail size).1 = [] then some []
    else
      match udpWriteFuel fuel odata (udpPayload tail size).2 size with
      | some rest => some (odata :: rest)
      | none => none

/-- The lines of a payload: split on `'\n'` (the newline bytes themselves are
not part of any line).  Used only to state the spec's "payload composed of
lines each shorter than maxSize" hypotheses. -/
def linesOf : List Char → List (List Char)
  | [] => [[]]
  | c :: cs =>
    if c = '\n' then [] :: linesOf cs
    else
      match linesOf cs with
      | [] => [[c]]
      | l :: ls => (c :: l) :: ls

/-! ### Client data model (`Result`, `Response`, points, batches, queries)

From the client model file.  `Result` also carries `Series []models.Row` and
`Messages []*Message` in Go; both are opaque payload from the external
`models` package and no claim concerns them, so only the error field is
embedded.  `models.Point` itself is external; a point is embedded as its
serialization function `precision ↦ PrecisionString(precision)`. -/

structure Result where
  err : String

structure Response where
  results : List Result
  err : String

/-- Embedding of `(*Response).Error()`: the top-level error if nonempty,
otherwise the first statement-level error, otherwise `nil`. -/
def Response.Error (r : Response) : Option String :=
  if r.err ≠ "" then some r.err
  else
    match r.results.find? (fun res => res.err != "") with
    | some res => some res.err
    | none => none

structure Query where
  Command : String
  Database : String
  Precision : String

def NewQuery (command database precision : String) : Query :=
  ⟨command, database, precision⟩

structure WriteConfig where
  Precision : String := ""
  Database : String := ""
  RetentionPolicy : String := ""
  WriteConsistency : String := ""

/-- A network request issued through the transport `Client` interface. -/
inductive Call where
  | write (lineData : String) (cfg : WriteConfig)
  | query (q : Query)

/-- One data point: modelled by its serialization function (the external
`models.Point.PrecisionString`). -/
structure Point where
  precisionString : String → String

structure BatchPoints where
  points : List Point

def BatchPoints.AddPoint (bp : BatchPoints) (p : Point) : BatchPoints :=
  ⟨bp.points ++ [p]⟩

def BatchPoints.AddPoints (bp : BatchPoints) (ps : List Point) : BatchPoints :=
  ⟨bp.points ++ ps⟩

/-- Embedding of `(*BatchPoints).Bytes(precision)`: each point's
precision-string followed by a newline, in order. -/
def BatchPoints.Bytes (bp : BatchPoints) (precision : String) : String :=
  bp.points.foldl (fun b p => b ++ p.precisionString precision ++ "\n") ""

/-! ### HTTP client query handling (`httpClient.Query`)

Request construction, the HTTP round trip and the JSON decoder are external;
what remains of `httpClient.Query` after `c.httpClient.Do(req)` returns is
the error-selection logic below.  `statusCode` is the response status,
`decErr0` the JSON decoder's error (`none` for a clean decode; Go's `io.EOF`
stringifies to `"EOF"`), `response` whatever the decoder left in the
`Response` value (the zero value `⟨[], ""⟩` when nothing was decoded).
Returns the `(*Response, error)` pair. -/

def httpQueryHandle (statusCode : Nat) (decErr0 : Option String)
    (response : Response) : Option Response × Option String :=
  -- `if decErr != nil && decErr.Error() == "EOF" && resp.StatusCode != http.StatusOK`
  match (match decErr0 with
    | some m => if m = "EOF" ∧ statusCode ≠ 200 then none else some m
    | none => none : Option String) with
  | some m =>
    (none, some ("unable to decode json: received status code "
      ++ toString statusCode ++ " err: " ++ m))
  | none =>
    if statusCode ≠ 200 ∧ response.Error = none then
      (some response,
        some ("received status code " ++ toString statusCode ++ " from server"))
    else
      (some response, none)

/-! ### Driver adapter (`influx.go`)

The Go `conn` owns a transport client, a database name, a precision and the
at-most-one open transaction; the client is represented by the write-error
oracle `wE` passed to each operation, and each operation returns the list of
transport calls it issued.  The Go `tx` and the statements carry a pointer
to their `conn`; here the connection is passed explicitly. -/

structure tx where
  bp : BatchPoints

structure conn where
  database : String
  precision : String
  tx : Option tx

/-- `newTx(c)` always succeeds with a fresh empty batch. -/
def newTx : tx × Option String :=
  (⟨⟨[]⟩⟩, none)

/-- Embedding of `(*conn).Begin()`: error if a transaction is already open,
otherwise attach a fresh transaction. -/
def conn.Begin (c : conn) : Option String × conn :=
  if c.tx.isSome then (some "a Tx already begins", c)
  else ((newTx).2, { c with tx := some (newTx).1 })

/-- Embedding of `(*tx).Commit()`: write the batch serialized at `"ns"`
precision to the connection's database, clear the transaction slot
unconditionally, return the write's error. -/
def tx.Commit (t : tx) (c : conn) (wE : String → WriteConfig → Option String) :
    Option String × conn × List Call :=
  (wE (t.bp.Bytes "ns") { Database := c.database },
    { c with tx := none },
    [Call.write (t.bp.Bytes "ns") { Database := c.database }])

/-- Embedding of `(*tx).Rollback()`: replace the batch with a fresh empty
one, clear the transaction slot, return `nil`; no transport client call
appears in the body (the signature takes no oracle and the wrapper below
records an empty call list). -/
def tx.Rollback (t : tx) (c : conn) : Option String × tx × conn :=
  (none, ⟨⟨[]⟩⟩, { c with tx := none })

/-- The driver execution result; the database assigns no row ids. -/
structure result where
  lastInsertedID : Int
  rowsAffected : Int

/-- `insertStmt` carries its conn pointer in Go; here the connection is an
explicit argument of `Exec`. -/
structure insertStmt where
  db : String
  query : String

/-- Embedding of `(*insertStmt).Exec`: one write of the statement body to the
statement's database (no precision is set in the `WriteConfig`), connection
state untouched. -/
def insertStmt.Exec (s : insertStmt) (c : conn)
    (wE : String → WriteConfig → Option String) :
    result × Option String × conn × List Call :=
  (⟨0, 0⟩, wE s.query { Database := s.db }, c,
    [Call.write s.query { Database := s.db }])

structure stmt where
  query : String

/-- Embedding of `(*stmt).Exec`: one query with the connection's default
database and precision; errors from the transport, then from the response
body, are returned; otherwise `rowsAffected` is the number of result
blocks.  `qR` is the transport's `Query` behaviour; the `(none, none)` arm
is unreachable for the real client, which never returns a nil response with
a nil error. -/
def stmt.Exec (s : stmt) (c : conn)
    (qR : Query → Option Response × Option String) :
    Option result × Option String × List Call :=
  match qR (NewQuery s.query c.database c.precision) with
  | (_, some e) => (none, some e, [Call.query (NewQuery s.query c.database c.precision)])
  | (some resp, none) =>
    match resp.Error with
    | some e => (none, some e, [Call.query (NewQuery s.query c.database c.precision)])
    | none => (some ⟨0, Int.ofNat resp.results.length⟩, none,
        [Call.query (NewQuery s.query c.database c.precision)])
  | (none, none) => (none, none, [Call.query (NewQuery s.query c.database c.precision)])

/-! ### Statement router (`newStmt` and `rxInsert`)

`rxInsert = ^(?i:INSERT\s+INTO)\s+([a-zA-Z0-9_\-]+)\.(.*)`, matched with
`FindStringSubmatch` (anchored at the start).  RE2 semantics embedded here:
`\s` is `[\t\n\f\r ]`; the case-insensitive group folds letters (the only
non-trivial simple-case-folding orbit touching INSERT/INTO is
`s/S/ſ (U+017F)`); the whitespace, identifier and keyword alternatives are
pairwise disjoint character sets, so greedy maximal-munch matching is exact;
`.` in the final capture group matches everything except `'\n'`. -/

def isGoSpace (c : Char) : Bool :=
  c == '\t' || c == '\n' || c == '\x0c' || c == '\r' || c == ' '

def isIdentChar (c : Char) : Bool :=
  c.isAlphanum || c == '_' || c == '-'

/-- Match a literal keyword case-insensitively (first argument lowercase),
returning the rest of the input. -/
def matchKeyword : List Char → List Char → Option (List Char)
  | [], rest => some rest
  | _ :: _, [] => none
  | k :: ks, c :: cs =>
    if c.toLower == k || (k == 's' && c == 'ſ') then matchKeyword ks cs else none

/-- `p`-prefix of length at least one (the `+` quantifier over a character
class), returning the prefix and the rest. -/
def takeWhile1 (p : Char → Bool) (l : List Char) : Option (List Char × List Char) :=
  if l.takeWhile p = [] then none else some (l.takeWhile p, l.dropWhile p)

/-- `rxInsert.FindStringSubmatch`: `some (m[1], m[2])` on a match, `none`
otherwise. -/
def rxInsertMatch (l : List Char) : Option (List Char × List Char) :=
  match matchKeyword ("insert".toList) l with
  | none => none
  | some r1 =>
    match takeWhile1 isGoSpace r1 with
    | none => none
    | some (_, r2) =>
      match matchKeyword ("into".toList) r2 with
      | none => none
      | some r3 =>
        match takeWhile1 isGoSpace r3 with
        | none => none
        | some (_, r4) =>
          match takeWhile1 isIdentChar r4 with
          | none => none
          | some (ident, r5) =>
            match r5 with
            | '.' :: r6 => some (ident, r6.takeWhile (fun c => c != '\n'))
            | _ => none

inductive Prepared where
  | insertStmt (s : insertStmt)
  | stmt (s : stmt)

/-- Embedding of `newStmt`: on a regex match route to the write path with
the captured database and body, otherwise to the generic query path. -/
def newStmt (query : String) : Prepared :=
  match rxInsertMatch query.toList with
  | some (db, insertQuery) => .insertStmt ⟨String.mk db, String.mk insertQuery⟩
  | none => .stmt ⟨query⟩

/-! ### Caller-side transaction scenario (for the rollback frame claim)

The wrappers dispatch a caller operation to the transaction currently
attached to the connection, the way a `database/sql` caller drives the
driver; `database/sql` guarantees `Commit`/`Rollback` are only reached with
an open transaction, so the `none` arms are unreachable glue. -/

def connAddPoints (c : conn) (ps : List Point) : conn :=
  match c.tx with
  | some t => { c with tx := some ⟨t.bp.AddPoints ps⟩ }
  | none => c

def connRollback (c : conn) : conn × List Call :=
  match c.tx with
  | some t => ((tx.Rollback t c).2.2, [])
  | none => (c, [])

def connCommit (c : conn) (wE : String → WriteConfig → Option String) :
    Option String × conn × List Call :=
  match c.tx with
  | some t => tx.Commit t c wE
  | none => (none, c, [])

/-- `begin; addPoints ps1; rollback; begin; addPoints ps2; commit`, returning
the final connection and every transport call issued. -/
def rollbackScenario (c0 : conn) (ps1 ps2 : List Point)
    (wE : String → WriteConfig → Option String) : conn × List Call :=
  let c1 := (conn.Begin c0).2
  let c2 := connAddPoints c1 ps1
  let r := connRollback c2
  let c3 := (conn.Begin r.1).2
  let c4 := connAddPoints c3 ps2
  let k := connCommit c4 wE
  (k.2.1, r.2 ++ k.2.2)

/-! ### `Open` (driver entry point)

`url.Parse` is external; `OpenURL` takes the parsed URL (query parameters
`timeout`, `precision`, `ua` read out by `uri.Query().Get`).  The `http`
branch builds an HTTP client from `"http://" + uri.Host` and the
credentials — external plumbing whose scheme check passes by construction —
and returns a `conn` with the path (leading `/` trimmed) as database and
`"ns"` as default precision.  The `udp` case is literally
`panic("udp scheme is not supported by the driver")` in the source. -/

inductive OpenResult where
  | ok (c : conn)
  | err (msg : String)
  | panicked (msg : String)

structure URL where
  Scheme : String
  Username : String
  Password : String
  Host : String
  Path : String
  timeoutParam : String
  precisionParam : String
  uaParam : String

/-- `strings.TrimPrefix(s, "/")`. -/
def trimLeadingSlash (s : String) : String :=
  match s.toList with
  | '/' :: rest => String.mk rest
  | _ => s

def OpenURL (uri : URL) : OpenResult :=
  if uri.Scheme = "udp" then .panicked "udp scheme is not supported by the driver"
  else if uri.Scheme = "http" then
    .ok { database := trimLeadingSlash uri.Path,
          precision := if uri.precisionParam = "" then "ns" else uri.precisionParam,
          tx := none }
  else .err ("unsupported scheme " ++ uri.Scheme)

/-! ### Helper lemmas about the chunker -/

theorem dropWhile_takeWhile_nil (p : Char → Bool) (l : List Char) :
    (l.dropWhile p).takeWhile p = [] := by
  induction l with
  | nil => rfl
  | cons c cs ih =>
    by_cases h : p c
    · simp [List.dropWhile, h, ih]
    · simp [List.dropWhile, List.takeWhile, h]

/-- The loop of `udpPayload` exits after at most `tail.length` rounds: its
value is the same for any two fuels strictly above `tail.length`.  This is
the fact that the fuel in the embedding is an artifact, not a behavior. -/
theorem udpPayloadLoop_fuel_stable (fuel : Nat) :
    ∀ fuel' size head tail, tail.length < fuel → tail.length < fuel' →
      udpPayloadLoop fuel size head tail = udpPayloadLoop fuel' size head tail := by
  induction fuel with
  | zero => intro fuel' size head tail h; omega
  | succ f ih =>
    intro fuel' size head tail h h'
    match fuel', h' with
    | f' + 1, h' =>
      show udpPayloadLoop (f + 1) size head tail = udpPayloadLoop (f' + 1) size head tail
      simp only [udpPayloadLoop]
      by_cases h1 : head.length < size
      · simp only [if_pos h1]
        by_cases h2 : tail.takeWhile (fun c => c != '\n') ≠ [] ∧
            tail.dropWhile (fun c => c != '\n') ≠ []
        · simp only [if_pos h2]
          have hsplit := List.takeWhile_append_dropWhile
            (p := fun c => c != '\n') (l := tail)
          have hlen : (tail.takeWhile (fun c => c != '\n')).length +
              (tail.dropWhile (fun c => c != '\n')).length = tail.length := by
            rw [← List.length_append, hsplit]
          have hpos : 0 < (tail.takeWhile (fun c => c != '\n')).length :=
            List.length_pos.mpr h2.1
          exact ih _ _ _ _ (by omega) (by omega)
        · simp only [if_neg h2]
      · simp only [if_neg h1]

/-- Closed form of `udpPayload`: because the source keeps the newline at the
front of the remainder (`tail[pos:]`, not `tail[pos+1:]`), the second loop
round always sees a remainder starting with `'\n'` and breaks, so the loop
splits off at most the first line, without its newline. -/
theorem udpPayload_eq (data : List Char) (size : Nat) :
    udpPayload data size =
      if 0 < size ∧ data.takeWhile (fun c => c != '\n') ≠ [] ∧
          data.dropWhile (fun c => c != '\n') ≠ [] then
        (data.takeWhile (fun c => c != '\n'), data.dropWhile (fun c => c != '\n'))
      else (data, []) := by
  unfold udpPayload
  by_cases hs : 0 < size
  · by_cases h2 : data.takeWhile (fun c => c != '\n') ≠ [] ∧
        data.dropWhile (fun c => c != '\n') ≠ []
    · have hlen : 0 < data.length := by
        rcases data with _ | _
        · exact absurd rfl h2.2
        · simp
      obtain ⟨m, hm⟩ : ∃ m, data.length = m + 1 := ⟨data.length - 1, by omega⟩
      have hstep : udpPayloadLoop (data.length + 1) size [] data =
          udpPayloadLoop (data.length) size (data.takeWhile (fun c => c != '\n'))
            (data.dropWhile (fun c => c != '\n')) := by
        simp only [udpPayloadLoop]
        rw [if_pos (show ([] : List Char).length < size by simpa using hs), if_pos h2,
          List.nil_append]
      have hdone : udpPayloadLoop (data.length) size (data.takeWhile (fun c => c != '\n'))
          (data.dropWhile (fun c => c != '\n')) =
          (data.takeWhile (fun c => c != '\n'), data.dropWhile (fun c => c != '\n')) := by
        rw [hm]
        simp only [udpPayloadLoop]
        by_cases h3 : (data.takeWhile (fun c => c != '\n')).length < size
        · rw [if_pos h3, if_neg]
          intro hc
          exact hc.1 (dropWhile_takeWhile_nil _ _)
        · rw [if_neg h3]
      rw [hstep, hdone, if_neg (show ¬ ((data.takeWhile (fun c => c != '\n'),
            data.dropWhile (fun c => c != '\n')).1 = []) from h2.1),
        if_pos (show 0 < size ∧ data.takeWhile (fun c => c != '\n') ≠ [] ∧
            data.dropWhile (fun c => c != '\n') ≠ [] from ⟨hs, h2⟩)]
    · have hloop : udpPayloadLoop (data.length + 1) size [] data = ([], data) := by
        simp only [udpPayloadLoop]
        rw [if_pos (show ([] : List Char).length < size by simpa using hs), if_neg h2]
      rw [hloop, if_pos (show ((([] : List Char), data)).1 = [] from rfl),
        if_neg (show ¬ (0 < size ∧ data.takeWhile (fun c => c != '\n') ≠ [] ∧
            data.dropWhile (fun c => c != '\n') ≠ []) from fun hc => h2 hc.2)]
  · have hloop : udpPayloadLoop (data.length + 1) size [] data = ([], data) := by
      simp only [udpPayloadLoop]
      rw [if_neg (show ¬ (([] : List Char).length < size) by simpa using hs)]
    rw [hloop, if_pos (show ((([] : List Char), data)).1 = [] from rfl),
      if_neg (show ¬ (0 < size ∧ data.takeWhile (fun c => c != '\n') ≠ [] ∧
          data.dropWhile (fun c => c != '\n') ≠ []) from fun hc => hs hc.1)]

/-- The two halves returned by `udpPayload` always concatenate back to the
input. -/
theorem udpPayload_append (data : List Char) (size : Nat) :
    (udpPayload data size).1 ++ (udpPayload data size).2 = data := by
  rw [udpPayload_eq]
  by_cases h : 0 < size ∧ data.takeWhile (fun c => c != '\n') ≠ [] ∧
      data.dropWhile (fun c => c != '\n') ≠ []
  · rw [if_pos h]
    exact List.takeWhile_append_dropWhile (p := fun c => c != '\n') (l := data)
  · rw [if_neg h]
    exact List.append_nil data

/-- `udpPayload` returns an empty chunk exactly on the empty payload: this is
the exit condition of the `udpWrite` loop. -/
theorem udpPayload_fst_nil_iff (data : List Char) (size : Nat) :
    (udpPayload data size).1 = [] ↔ data = [] := by
  rw [udpPayload_eq]
  by_cases h : 0 < size ∧ data.takeWhile (fun c => c != '\n') ≠ [] ∧
      data.dropWhile (fun c => c != '\n') ≠ []
  · rw [if_pos h]
    constructor
    · intro hh; exact absurd hh h.2.1
    · intro hd
      subst hd
      exact absurd rfl h.2.1
  · rw [if_neg h]

/-- Forward progress: a nonempty chunk strictly shrinks the remainder. -/
theorem udpPayload_progress (data : List Char) (size : Nat)
    (h : (udpPayload data size).1 ≠ []) :
    (udpPayload data size).2.length < data.length := by
  have happ := udpPayload_append data size
  have hlen : (udpPayload data size).1.length + (udpPayload data size).2.length
      = data.length := by
    rw [← List.length_append, happ]
  have hpos : 0 < (udpPayload data size).1.length := List.length_pos.mpr h
  omega

/-- With fuel strictly above the payload length, the chunking loop reaches
its natural exit and the produced chunks concatenate back to the payload. -/
theorem udpChunksFuel_adequate : ∀ (fuel : Nat) (data : List Char) (size : Nat),
    data.length < fuel →
    ∃ chunks, udpChunksFuel fuel data size = some chunks ∧ chunks.flatten = data := by
  intro fuel
  induction fuel with
  | zero => intro data size h; omega
  | succ f ih =>
    intro data size h
    by_cases hp : (udpPayload data size).1 = []
    · refine ⟨[], ?_, ?_⟩
      · simp only [udpChunksFuel]
        rw [if_pos hp]
      · rw [List.flatten_nil]
        have := udpPayload_append data size
        rw [hp, List.nil_append] at this
        have h2 := udpPayload_fst_nil_iff data size
        exact (h2.mp hp).symm
    · have hprog := udpPayload_progress data size hp
      obtain ⟨rest, hr, hj⟩ := ih (udpPayload data size).2 size (by omega)
      refine ⟨(udpPayload data size).1 :: rest, ?_, ?_⟩
      · simp only [udpChunksFuel]
        rw [if_neg hp, hr]
      · rw [List.flatten_cons, hj, udpPayload_append]

/-- With fuel strictly above the remaining payload length, the `udpWrite`
loop reaches its natural exit. -/
theorem udpWriteFuel_adequate : ∀ (fuel : Nat) (odata tail : List Char) (size : Nat),
    tail.length < fuel → (udpWriteFuel fuel odata tail size).isSome = true := by
  intro fuel
  induction fuel with
  | zero => intro odata tail size h; omega
  | succ f ih =>
    intro odata tail size h
    by_cases hp : (udpPayload tail size).1 = []
    · simp only [udpWriteFuel]
      rw [if_pos hp]
      rfl
    · have hprog := udpPayload_progress tail size hp
      have hrest := ih odata (udpPayload tail size).2 size (by omega)
      simp only [udpWriteFuel]
      rw [if_neg hp]
      rcases hsome : udpWriteFuel f odata (udpPayload tail size).2 size with _ | rest
      · rw [hsome] at hrest
        simp at hrest
      · rfl

/-! ### Claim theorems about the UDP chunker -/

/-- C1: the claim says every chunk produced from a payload of lines each
shorter than `maxSize` consists of whole lines (boundaries only right after a
newline byte) and is at most `maxSize` bytes unless it is a single oversized
line.  The code violates this: on payload `"aa\nbb\ncc\n"` with `maxSize = 4`
(every line is 2 bytes), the chunker emits `"aa"` (boundary immediately
BEFORE a newline) and then the whole 7-byte remainder `"\nbb\ncc\n"`, a chunk
that exceeds `maxSize` while holding two whole lines. -/
theorem c1_chunk_exceeds :
    udpChunksFuel 10 ("aa\nbb\ncc\n".toList) 4
        = some ["aa".toList, "\nbb\ncc\n".toList]
    ∧ linesOf ("aa\nbb\ncc\n".toList) = ["aa".toList, "bb".toList, "cc".toList, []]
    ∧ 4 < ("\nbb\ncc\n".toList).length := by decide

/-- C8: for any payload whose lines are each shorter than `maxSize`,
concatenating the chunks produced by chunking at `maxSize`, in order,
reconstructs the original payload byte for byte.  (This holds for the code
as written — `udpPayload` always splits its input into a prefix/suffix pair —
and indeed holds for every payload, with or without the line-length
hypothesis.) -/
theorem c8_chunks_reconstruct (data : List Char) (size : Nat)
    (hlines : ∀ l ∈ linesOf data, l.length < size) :
    ∃ chunks, udpChunksFuel (data.length + 1) data size = some chunks ∧
      chunks.flatten = data :=
  udpChunksFuel_adequate (data.length + 1) data size (by omega)

/-- Witness for C8 at a concrete payload: `"aa\nbb\n"` with `maxSize = 4`. -/
theorem c8_chunks_reconstruct_witness :
    (∀ l ∈ linesOf ("aa\nbb\n".toList), l.length < 4) ∧
    (∃ chunks, udpChunksFuel (("aa\nbb\n".toList).length + 1) ("aa\nbb\n".toList) 4
        = some chunks ∧ chunks.flatten = "aa\nbb\n".toList) :=
  ⟨by decide, c8_chunks_reconstruct ("aa\nbb\n".toList) 4 (by decide)⟩

/-- C10: the `udpWrite` loop terminates on every payload (empty, untrailing,
or with a line longer than `maxSize`, `maxSize = 0` included): with fuel
`data.length + 1` the loop always reaches its natural exit, and the chunk
split off is empty (the loop's break condition) exactly when the remaining
unprocessed payload is empty, so every iteration on a nonempty remainder
makes forward progress. -/
theorem c10_udpWrite_terminates (data : List Char) (size : Nat) :
    (udpWriteFuel (data.length + 1) data data size).isSome = true
    ∧ ∀ tail : List Char, ((udpPayload tail size).1 = [] ↔ tail = []) :=
  ⟨udpWriteFuel_adequate (data.length + 1) data data size (by omega),
    fun tail => udpPayload_fst_nil_iff tail size⟩

/-! ### Claim theorems about query error handling (C2) -/

/-- C2 counterexample: a 500 status together with a decode error other than
`"EOF"` (a non-empty unparseable body) is returned as the decode error, with
a `nil` response — not as the status-derived error — so a decode error
coinciding with a non-success status is NOT always suppressed. -/
theorem c2_decode_error_not_suppressed :
    (httpQueryHandle 500 (some "invalid character") ⟨[], ""⟩).2
        = some "unable to decode json: received status code 500 err: invalid character"
    ∧ (httpQueryHandle 500 (some "invalid character") ⟨[], ""⟩).1 = none := by
  constructor <;> rfl

/-- C2 (amended): only a decode error whose message is exactly `"EOF"` (an
empty body) coinciding with a non-200 status is suppressed, in which case
the query returns the status-derived error, whose message carries the status
code (not the raw body text); any other decode error is returned as a decode
error even on a non-success status. -/
theorem c2_query_error_amended (status : Nat) (h : status ≠ 200) :
    ((httpQueryHandle status (some "EOF") ⟨[], ""⟩).2
        = some ("received status code " ++ toString status ++ " from server"))
    ∧ ∀ m : String, m ≠ "EOF" →
      (httpQueryHandle status (some m) ⟨[], ""⟩).2
        = some ("unable to decode json: received status code "
            ++ toString status ++ " err: " ++ m) := by
  constructor
  · simp [httpQueryHandle, h, Response.Error]
  · intro m hm
    simp [httpQueryHandle, hm]

/-- Witness for the amended C2 at status 500, with decoder errors `"EOF"`
and `"oops"`. -/
theorem c2_query_error_amended_witness :
    ((httpQueryHandle 500 (some "EOF") ⟨[], ""⟩).2
        = some "received status code 500 from server")
    ∧ (httpQueryHandle 500 (some "oops") ⟨[], ""⟩).2
        = some "unable to decode json: received status code 500 err: oops" := by
  have h := c2_query_error_amended 500 (by decide)
  refine ⟨?_, ?_⟩
  · rw [h.1]
    rfl
  · rw [h.2 "oops" (by decide)]
    rfl

/-! ### Claim theorems about the transaction shim (C4, C5, C6, C7) -/

/-- C4: commit serializes the attached batch at nanosecond precision, issues
exactly one write request for the connection's database, clears the
connection's transaction slot whatever the write oracle answers (so also
when the write errors), and hands the write's error back to the caller. -/
theorem c4_commit_spec (t : tx) (c : conn) (wE : String → WriteConfig → Option String) :
    tx.Commit t c wE
      = (wE (t.bp.Bytes "ns") { Database := c.database },
         { c with tx := none },
         [Call.write (t.bp.Bytes "ns") { Database := c.database }]) := rfl

/-- C5: begin on an occupied transaction slot fails with the
transaction-already-open error and returns the connection unchanged (the
open transaction and its batch intact); begin on a free slot attaches a
fresh transaction with an empty batch. -/
theorem c5_begin_spec (c : conn) :
    (∀ t0, c.tx = some t0 → conn.Begin c = (some "a Tx already begins", c))
    ∧ (c.tx = none → conn.Begin c = (none, { c with tx := some ⟨⟨[]⟩⟩ })) := by
  constructor
  · intro t0 ht
    unfold conn.Begin
    rw [ht]
    rfl
  · intro ht
    unfold conn.Begin
    rw [ht]
    rfl

/-- Witness for C5: both arms at a concrete connection. -/
theorem c5_begin_witness :
    conn.Begin ⟨"db", "ns", some ⟨⟨[]⟩⟩⟩
        = (some "a Tx already begins", ⟨"db", "ns", some ⟨⟨[]⟩⟩⟩)
    ∧ conn.Begin ⟨"db", "ns", none⟩ = (none, ⟨"db", "ns", some ⟨⟨[]⟩⟩⟩) :=
  ⟨(c5_begin_spec ⟨"db", "ns", some ⟨⟨[]⟩⟩⟩).1 ⟨⟨[]⟩⟩ rfl,
   (c5_begin_spec ⟨"db", "ns", none⟩).2 rfl⟩

/-- C6: rollback replaces the attached batch with a fresh empty one, clears
the transaction slot and issues no transport call; in the scenario
`begin; addPoints ps1; rollback; begin; addPoints ps2; commit` the only
write on the wire carries the serialization of `ps2` alone — the trace does
not depend on the discarded `ps1` at all. -/
theorem c6_rollback_spec :
    (∀ (t : tx) (c : conn), tx.Rollback t c = (none, ⟨⟨[]⟩⟩, { c with tx := none }))
    ∧ (∀ c : conn, (connRollback c).2 = [])
    ∧ (∀ (c0 : conn) (ps1 ps2 : List Point) (wE : String → WriteConfig → Option String),
        c0.tx = none →
        rollbackScenario c0 ps1 ps2 wE
          = ({ c0 with tx := none },
             [Call.write ((BatchPoints.mk ps2).Bytes "ns") { Database := c0.database }])) := by
  refine ⟨fun t c => rfl, fun c => ?_, fun c0 ps1 ps2 wE h0 => ?_⟩
  · rcases hc : c.tx with _ | t <;> simp [connRollback, hc]
  · obtain ⟨db, prec, tx0⟩ := c0
    simp only at h0
    subst h0
    simp [rollbackScenario, conn.Begin, connAddPoints, connRollback, connCommit,
      tx.Commit, tx.Rollback, newTx, BatchPoints.AddPoints]

/-- Witness for C6: a concrete run in which the point discarded by rollback
(serializing to `"old"`) is absent from the wire and only the point added
afterwards (serializing to `"new"`) is written. -/
theorem c6_rollback_witness :
    rollbackScenario ⟨"db", "ns", none⟩ [⟨fun _ => "old"⟩] [⟨fun _ => "new"⟩]
        (fun _ _ => none)
      = (⟨"db", "ns", none⟩, [Call.write "new\n" { Database := "db" }]) := by
  have h := c6_rollback_spec.2.2 ⟨"db", "ns", none⟩ [⟨fun _ => "old"⟩]
    [⟨fun _ => "new"⟩] (fun _ _ => none) rfl
  rw [h]
  rfl

/-- C7: executing an insert statement writes the line-protocol body straight
through the transport client and leaves the connection — in particular any
open transaction and its batch — untouched. -/
theorem c7_insert_writethrough (s : insertStmt) (c : conn)
    (wE : String → WriteConfig → Option String) (t : tx) (h : c.tx = some t) :
    (insertStmt.Exec s c wE).2.2.1 = c
    ∧ ((insertStmt.Exec s c wE).2.2.1).tx = some t
    ∧ (insertStmt.Exec s c wE).2.2.2 = [Call.write s.query { Database := s.db }] :=
  ⟨rfl, h, rfl⟩

/-- Witness for C7 at a concrete statement and a connection with an open
(empty-batch) transaction. -/
theorem c7_insert_writethrough_witness :
    (insertStmt.Exec ⟨"mydb", "cpu value=1"⟩ ⟨"db", "ns", some ⟨⟨[]⟩⟩⟩
        (fun _ _ => none)).2.2.1 = ⟨"db", "ns", some ⟨⟨[]⟩⟩⟩
    ∧ ((insertStmt.Exec ⟨"mydb", "cpu value=1"⟩ ⟨"db", "ns", some ⟨⟨[]⟩⟩⟩
        (fun _ _ => none)).2.2.1).tx = some ⟨⟨[]⟩⟩
    ∧ (insertStmt.Exec ⟨"mydb", "cpu value=1"⟩ ⟨"db", "ns", some ⟨⟨[]⟩⟩⟩
        (fun _ _ => none)).2.2.2 = [Call.write "cpu value=1" { Database := "mydb" }] :=
  c7_insert_writethrough ⟨"mydb", "cpu value=1"⟩ ⟨"db", "ns", some ⟨⟨[]⟩⟩⟩
    (fun _ _ => none) ⟨⟨[]⟩⟩ rfl

/-! ### Claim theorems about `Open` (C9) -/

/-- C9 counterexample: opening a udp connection string does not select a UDP
transport and does not return an error — the source literally panics. -/
theorem c9_udp_panics :
    OpenURL ⟨"udp", "", "", "localhost:8089", "", "", "", ""⟩
      = OpenResult.panicked "udp scheme is not supported by the driver" := rfl

/-- C9 (amended): `Open` supports only the `http` scheme; the `udp` scheme
panics with "udp scheme is not supported by the driver" instead of selecting
the unreliable transport; every other scheme fails at open time with an
"unsupported scheme" error. -/
theorem c9_open_scheme_spec (uri : URL) :
    (uri.Scheme = "udp" →
      OpenURL uri = OpenResult.panicked "udp scheme is not supported by the driver")
    ∧ (uri.Scheme = "http" →
      OpenURL uri = OpenResult.ok ⟨trimLeadingSlash uri.Path,
        (if uri.precisionParam = "" then "ns" else uri.precisionParam), none⟩)
    ∧ (uri.Scheme ≠ "udp" → uri.Scheme ≠ "http" →
      OpenURL uri = OpenResult.err ("unsupported scheme " ++ uri.Scheme)) := by
  refine ⟨fun h => ?_, fun h => ?_, fun h1 h2 => ?_⟩
  · unfold OpenURL
    rw [if_pos h]
  · unfold OpenURL
    rw [if_neg (by rw [h]; decide), if_pos h]
  · unfold OpenURL
    rw [if_neg h1, if_neg h2]

/-- Witness for the amended C9: all three scheme cases at concrete URLs. -/
theorem c9_open_scheme_witness :
    OpenURL ⟨"udp", "", "", "h", "", "", "", ""⟩
        = OpenResult.panicked "udp scheme is not supported by the driver"
    ∧ OpenURL ⟨"http", "", "", "h", "/mydb", "", "", ""⟩
        = OpenResult.ok ⟨"mydb", "ns", none⟩
    ∧ OpenURL ⟨"ftp", "", "", "h", "", "", "", ""⟩
        = OpenResult.err "unsupported scheme ftp" := by
  refine ⟨(c9_open_scheme_spec ⟨"udp", "", "", "h", "", "", "", ""⟩).1 rfl, ?_, ?_⟩
  · have h := (c9_open_scheme_spec ⟨"http", "", "", "h", "/mydb", "", "", ""⟩).2.1 rfl
    rw [h]
    rfl
  · have h := (c9_open_scheme_spec ⟨"ftp", "", "", "h", "", "", "", ""⟩).2.2
      (by decide) (by decide)
    rw [h]
    rfl

/-! ### Helper lemmas for the statement router (C3) -/

theorem matchKeyword_append (kw b : List Char) :
    matchKeyword (kw.map Char.toLower) (kw ++ b) = some b := by
  induction kw with
  | nil => rfl
  | cons c cs ih =>
    simp only [List.map_cons, List.cons_append, matchKeyword]
    rw [if_pos]
    · exact ih
    · simp

theorem takeWhile_all_append (p : Char → Bool) (ws l : List Char)
    (hws : ∀ c ∈ ws, p c = true)
    (hl : ∀ c, l.head? = some c → p c = false) :
    (ws ++ l).takeWhile p = ws ∧ (ws ++ l).dropWhile p = l := by
  induction ws with
  | nil =>
    simp only [List.nil_append]
    cases l with
    | nil => exact ⟨rfl, rfl⟩
    | cons c cs =>
      have hc := hl c rfl
      exact ⟨List.takeWhile_cons_of_neg (by simp [hc]),
        List.dropWhile_cons_of_neg (by simp [hc])⟩
  | cons w ws ih =>
    have hw : p w = true := hws w (by simp)
    have ihh := ih (fun c hc => hws c (by simp [hc]))
    refine ⟨?_, ?_⟩
    · rw [List.cons_append, List.takeWhile_cons_of_pos hw, ihh.1]
    · rw [List.cons_append, List.dropWhile_cons_of_pos hw, ihh.2]

theorem takeWhile1_append (p : Char → Bool) (ws l : List Char) (hne : ws ≠ [])
    (hws : ∀ c ∈ ws, p c = true)
    (hl : ∀ c, l.head? = some c → p c = false) :
    takeWhile1 p (ws ++ l) = some (ws, l) := by
  have h := takeWhile_all_append p ws l hws hl
  unfold takeWhile1
  rw [h.1, h.2, if_neg hne]

theorem takeWhile_all_eq_self (p : Char → Bool) (l : List Char)
    (h : ∀ c ∈ l, p c = true) : l.takeWhile p = l := by
  induction l with
  | nil => rfl
  | cons c cs ih =>
    rw [List.takeWhile_cons_of_pos (h c (by simp)),
      ih (fun x hx => h x (by simp [hx]))]

theorem isGoSpace_eq_true_iff (c : Char) :
    isGoSpace c = true ↔ (c = '\t' ∨ c = '\n' ∨ c = '\x0c' ∨ c = '\r' ∨ c = ' ') := by
  simp [isGoSpace]
  tauto

theorem not_goSpace_of_toLower_i (c : Char) (h : c.toLower = 'i') :
    isGoSpace c = false := by
  cases hgs : isGoSpace c
  · rfl
  · exfalso
    rcases (isGoSpace_eq_true_iff c).mp hgs with h1 | h1 | h1 | h1 | h1 <;>
      (subst h1; exact absurd h (by decide))

theorem not_goSpace_of_identChar (c : Char) (h : isIdentChar c = true) :
    isGoSpace c = false := by
  cases hgs : isGoSpace c
  · rfl
  · exfalso
    rcases (isGoSpace_eq_true_iff c).mp hgs with h1 | h1 | h1 | h1 | h1 <;>
      (subst h1; exact absurd h (by decide))

/-- A statement text of the shape `INSERT INTO <ident>.<rest>` — keywords up
to ASCII case, at least one whitespace byte between tokens, a nonempty
identifier over `[a-zA-Z0-9_-]`, and a newline-free remainder — matches
`rxInsert` with capture groups `<ident>` and `<rest>`. -/
theorem rxInsertMatch_decompose (kw1 ws1 kw2 ws2 ident rest : List Char)
    (h1 : kw1.map Char.toLower = "insert".toList)
    (hws1 : ws1 ≠ []) (hws1a : ∀ c ∈ ws1, isGoSpace c = true)
    (h2 : kw2.map Char.toLower = "into".toList)
    (hws2 : ws2 ≠ []) (hws2a : ∀ c ∈ ws2, isGoSpace c = true)
    (hid : ident ≠ []) (hida : ∀ c ∈ ident, isIdentChar c = true)
    (hrest : '\n' ∉ rest) :
    rxInsertMatch (kw1 ++ ws1 ++ kw2 ++ ws2 ++ ident ++ '.' :: rest)
      = some (ident, rest) := by
  obtain ⟨k2, ks2, hk2⟩ : ∃ k2 ks2, kw2 = k2 :: ks2 := by
    rcases kw2 with _ | ⟨k2, ks2⟩
    · rw [List.map_nil] at h2
      exact absurd h2 (by decide)
    · exact ⟨k2, ks2, rfl⟩
  have hk2l : k2.toLower = 'i' := by
    rw [hk2] at h2
    rw [show ("into".toList) = 'i' :: 'n' :: 't' :: 'o' :: [] from rfl] at h2
    simp only [List.map_cons] at h2
    injection h2 with ha hb
  obtain ⟨i0, ids, hi0⟩ : ∃ i0 ids, ident = i0 :: ids := by
    rcases ident with _ | ⟨i0, ids⟩
    · exact absurd rfl hid
    · exact ⟨i0, ids, rfl⟩
  have e1 : matchKeyword ("insert".toList)
      (kw1 ++ (ws1 ++ (kw2 ++ (ws2 ++ (ident ++ '.' :: rest)))))
      = some (ws1 ++ (kw2 ++ (ws2 ++ (ident ++ '.' :: rest)))) := by
    rw [← h1]
    exact matchKeyword_append _ _
  have e2 : takeWhile1 isGoSpace (ws1 ++ (kw2 ++ (ws2 ++ (ident ++ '.' :: rest))))
      = some (ws1, kw2 ++ (ws2 ++ (ident ++ '.' :: rest))) := by
    refine takeWhile1_append _ _ _ hws1 hws1a ?_
    intro c hc
    rw [hk2] at hc
    simp only [List.cons_append, List.head?_cons, Option.some.injEq] at hc
    subst hc
    exact not_goSpace_of_toLower_i _ hk2l
  have e3 : matchKeyword ("into".toList) (kw2 ++ (ws2 ++ (ident ++ '.' :: rest)))
      = some (ws2 ++ (ident ++ '.' :: rest)) := by
    rw [← h2]
    exact matchKeyword_append _ _
  have e4 : takeWhile1 isGoSpace (ws2 ++ (ident ++ '.' :: rest))
      = some (ws2, ident ++ '.' :: rest) := by
    refine takeWhile1_append _ _ _ hws2 hws2a ?_
    intro c hc
    rw [hi0] at hc
    simp only [List.cons_append, List.head?_cons, Option.some.injEq] at hc
    subst hc
    exact not_goSpace_of_identChar _ (hida i0 (by rw [hi0]; simp))
  have e5 : takeWhile1 isIdentChar (ident ++ '.' :: rest)
      = some (ident, '.' :: rest) := by
    refine takeWhile1_append _ _ _ hid hida ?_
    intro c hc
    simp only [List.head?_cons, Option.some.injEq] at hc
    subst hc
    decide
  have e6 : rest.takeWhile (fun c => c != '\n') = rest := by
    refine takeWhile_all_eq_self _ _ ?_
    intro c hc
    simp only [bne_iff_ne, ne_eq]
    intro hceq
    exact hrest (hceq ▸ hc)
  simp only [List.append_assoc]
  simp only [rxInsertMatch, e1, e2, e3, e4, e5, e6]

/-! ### Claim theorem for statement routing (C3) -/

/-- C3: a statement of the shape `INSERT INTO <identifier>.<rest>`
(case-insensitive keywords, identifier over alphanumerics/hyphen/underscore,
newline-free rest) is routed to the write path, whose execution writes the
body `<rest>` verbatim against database `<identifier>`; a text the pattern
does not match is routed to the generic query path, whose execution queries
the text verbatim with the connection's default database and precision; in
particular the spec's `SELECT * FROM cpu` example routes to the query path
unchanged.  (The insert example is checked in the witness.) -/
theorem c3_statement_routing :
    (∀ (kw1 ws1 kw2 ws2 ident rest : List Char) (q : String),
      kw1.map Char.toLower = "insert".toList →
      ws1 ≠ [] → (∀ c ∈ ws1, isGoSpace c = true) →
      kw2.map Char.toLower = "into".toList →
      ws2 ≠ [] → (∀ c ∈ ws2, isGoSpace c = true) →
      ident ≠ [] → (∀ c ∈ ident, isIdentChar c = true) →
      '\n' ∉ rest →
      q.toList = kw1 ++ ws1 ++ kw2 ++ ws2 ++ ident ++ '.' :: rest →
      newStmt q = Prepared.insertStmt ⟨String.mk ident, String.mk rest⟩
        ∧ ∀ (c : conn) (wE : String → WriteConfig → Option String),
          (insertStmt.Exec ⟨String.mk ident, String.mk rest⟩ c wE).2.2.2
            = [Call.write (String.mk rest) { Database := String.mk ident }])
    ∧ (∀ q : String, rxInsertMatch q.toList = none → newStmt q = Prepared.stmt ⟨q⟩)
    ∧ (∀ (s : stmt) (c : conn) (qR : Query → Option Response × Option String),
        (stmt.Exec s c qR).2.2 = [Call.query (NewQuery s.query c.database c.precision)])
    ∧ newStmt "SELECT * FROM cpu" = Prepared.stmt ⟨"SELECT * FROM cpu"⟩ := by
  refine ⟨?_, ?_, ?_, ?_⟩
  · intro kw1 ws1 kw2 ws2 ident rest q h1 hws1 hws1a h2 hws2 hws2a hid hida hrest hq
    have hm := rxInsertMatch_decompose kw1 ws1 kw2 ws2 ident rest
      h1 hws1 hws1a h2 hws2 hws2a hid hida hrest
    refine ⟨?_, fun c wE => rfl⟩
    unfold newStmt
    rw [hq, hm]
  · intro q hq
    unfold newStmt
    rw [hq]
  · intro s c qR
    rcases hr : qR (NewQuery s.query c.database c.precision) with ⟨resp, err⟩
    rcases err with _ | e
    · rcases resp with _ | r
      · simp [stmt.Exec, hr]
      · rcases he : r.Error with _ | e2 <;> simp [stmt.Exec, hr, he]
    · simp [stmt.Exec, hr]
  · rfl

/-- Witness for C3: the spec's two concrete examples,
`INSERT INTO mydb.cpu,host=a value=1 100` routed to the write path with
database `mydb` and body `cpu,host=a value=1 100`, and `SELECT * FROM cpu`
routed to the generic query path unchanged. -/
theorem c3_statement_routing_witness :
    newStmt "INSERT INTO mydb.cpu,host=a value=1 100"
        = Prepared.insertStmt ⟨"mydb", "cpu,host=a value=1 100"⟩
    ∧ newStmt "SELECT * FROM cpu" = Prepared.stmt ⟨"SELECT * FROM cpu"⟩ := by
  constructor
  · exact (c3_statement_routing.1 "INSERT".toList [' '] "INTO".toList [' ']
      "mydb".toList "cpu,host=a value=1 100".toList
      "INSERT INTO mydb.cpu,host=a value=1 100"
      (by decide) (by decide) (by decide) (by decide) (by decide) (by decide)
      (by decide) (by decide) (by decide) (by decide)).1
  · exact c3_statement_routing.2.2.2
